import Mathlib

/-!
Verification of the write-to-query lifecycle core of a columnar time-series
database. The Rust sources are shallowly embedded as executable Lean
functions:

* the querier's catalog/ingester reconciliation
  (querier/src/table/state_reconciler.rs),
* the ingester's lifecycle manager (ingester/src/lifecycle.rs),
* the exponential-backoff retry policy (backoff/src/lib.rs),
* the reorg planner's split plan (iox_query/src/frontend/reorg.rs),
* the compactor's queryable parquet chunk (compactor/src/query.rs),
* the ingester's query RPC handler (ingester/src/querier_handler.rs).

Catalog identifiers (PartitionId, SequencerId, SequenceNumber, TombstoneId)
are i64 newtypes in the source and are embedded as Int. Record batches are
opaque and are embedded as Nat tokens. Byte counts are usize and are
embedded as Nat.
-/

/-- data_types CompactionLevel: Initial is L0 (freshly persisted by the
ingester), FileNonOverlapped is L1 (produced by the compactor). -/
inductive CompactionLevel where
  | initial
  | fileNonOverlapped
deriving DecidableEq, Repr

/-- The IngesterPartitionInfo trait of state_reconciler/interface.rs: the
partition-status information one ingester partition envelope reports. -/
structure IngesterPartitionInfo where
  partitionId : Int
  sequencerId : Int
  parquetMaxSequenceNumber : Option Int
  tombstoneMaxSequenceNumber : Option Int
deriving DecidableEq, Repr

/-- The ParquetFileInfo trait of state_reconciler/interface.rs, for the
plain catalog parquet-file record. -/
structure ParquetFileInfo where
  partitionId : Int
  maxSequenceNumber : Int
  compactionLevel : CompactionLevel
deriving DecidableEq, Repr

/-- The TombstoneInfo trait of state_reconciler/interface.rs. -/
structure TombstoneInfo where
  id : Int
  sequencerId : Int
  sequenceNumber : Int
deriving DecidableEq, Repr

/-- ReconcileError of state_reconciler.rs. -/
inductive ReconcileError where
  | compactorConflict
deriving DecidableEq, Repr

/-! ### Compactor queryable chunk (compactor/src/query.rs) -/

/-- The metadata of compactor QueryableParquetChunk that its QueryChunk
implementation reads: max_sequence_number, compaction_level and the
object-store id backing the chunk id. The Uuid object-store identifier is
embedded as a Nat token. -/
structure QueryableParquetChunk where
  maxSequenceNumber : Int
  compactionLevel : CompactionLevel
  objectStoreId : Nat
deriving DecidableEq, Repr

/-- QueryableParquetChunk::order (compactor/src/query.rs): the dedup-merge
order is ChunkOrder::new(max_sequence_number) for L0 files and
ChunkOrder::new(0) for L1 files. -/
def QueryableParquetChunk.order (c : QueryableParquetChunk) : Int :=
  match c.compactionLevel with
  | CompactionLevel.initial => c.maxSequenceNumber
  | CompactionLevel.fileNonOverlapped => 0

/-- QueryableParquetChunk::id (compactor/src/query.rs): the chunk id used as
deterministic tiebreaker is the parquet file's object store id. -/
def QueryableParquetChunk.id (c : QueryableParquetChunk) : Nat :=
  c.objectStoreId

/-! ### Backoff retry policy (backoff/src/lib.rs) -/

/-- std::ops::ControlFlow as consumed by Backoff::retry_with_backoff:
the operation either breaks out of the loop with a result or continues
with a retryable error. -/
inductive RetryControlFlow (B E : Type) where
  | breakWith (b : B)
  | continueWith (e : E)

/-- backoff::BackoffError is std::convert::Infallible, a type with no
values. -/
def BackoffError : Type := Empty

/-- backoff::BackoffResult. -/
def BackoffResult (T : Type) : Type := Except BackoffError T

/-- The loop of Backoff::retry_with_backoff, observed for fuel iterations.
doStuff n is the ControlFlow outcome of the n-th attempt (the source calls
the closure once per loop iteration, sleeping a backoff interval between
attempts; the sleep does not affect control flow and is not modelled).
Returns some b when the loop exits with Ok(b) within fuel iterations, and
none while the loop is still running. The source loop has no other exit:
it never stops retrying on its own. -/
def retry_with_backoff_steps {B E : Type} (doStuff : Nat → RetryControlFlow B E) :
    Nat → Nat → Option B
  | _, 0 => none
  | attempt, fuel + 1 =>
    match doStuff attempt with
    | RetryControlFlow.breakWith b => some b
    | RetryControlFlow.continueWith _ => retry_with_backoff_steps doStuff (attempt + 1) fuel

/-- C5: the claim says a retried operation that keeps failing eventually
surfaces an error after a configured maximum total elapsed time. The code
has no such cap: given an operation that fails on every attempt, the loop
of Backoff::retry_with_backoff produces no result after any number of
iterations, and BackoffResult can never even hold an error because
BackoffError is Infallible (uninhabited). The source's own TODO comments
state that the global maximum timeout is missing. -/
theorem retry_with_backoff_retries_forever :
    (∀ (B E : Type) (e : E) (attempt fuel : Nat),
      retry_with_backoff_steps (fun _ => (RetryControlFlow.continueWith e : RetryControlFlow B E))
        attempt fuel = none) ∧
    (∀ (T : Type) (r : BackoffResult T), ∃ t, r = Except.ok t) := by
  constructor
  · intro B E e attempt fuel
    induction fuel generalizing attempt with
    | zero => rfl
    | succ n ih => simpa [retry_with_backoff_steps] using ih (attempt + 1)
  · intro T r
    match r with
    | Except.ok t => exact ⟨t, rfl⟩
    | Except.error e => exact (show Empty from e).elim

/-! ### Querier reconciliation: parquet file filter (state_reconciler.rs) -/

/-- The partition-keyed lookup table built at the top of
filter_parquet_files: a HashMap collected from the ingester partitions,
so for a duplicated partition id the last entry wins. -/
def lookupIngesterPartition (ps : List IngesterPartitionInfo) (pid : Int) :
    Option IngesterPartitionInfo :=
  ps.foldl (fun acc i => if i.partitionId = pid then some i else acc) none

/-- filter_parquet_files of state_reconciler.rs. The source is generic over
the ParquetFileInfo trait; the trait methods are passed as the projections
fPid, fMaxSeq and fLvl. For each file: with an ingester envelope reporting
parquet_max_seq = Some persistedMax, a non-L0 file newer than persistedMax
aborts with CompactorConflict, an L0 file newer than persistedMax is
dropped, and an older-or-equal file is kept; with parquet_max_seq = None
the file is dropped; with no envelope for its partition the file is kept. -/
def filter_parquet_files {P : Type} (fPid fMaxSeq : P → Int) (fLvl : P → CompactionLevel)
    (ps : List IngesterPartitionInfo) :
    List P → Except ReconcileError (List P)
  | [] => Except.ok []
  | f :: rest =>
    match lookupIngesterPartition ps (fPid f) with
    | some ip =>
      match ip.parquetMaxSequenceNumber with
      | some persistedMax =>
        if fLvl f ≠ CompactionLevel.initial ∧ fMaxSeq f > persistedMax then
          Except.error ReconcileError.compactorConflict
        else if fMaxSeq f > persistedMax then
          filter_parquet_files fPid fMaxSeq fLvl ps rest
        else
          (filter_parquet_files fPid fMaxSeq fLvl ps rest).map (f :: ·)
      | none => filter_parquet_files fPid fMaxSeq fLvl ps rest
    | none => (filter_parquet_files fPid fMaxSeq fLvl ps rest).map (f :: ·)

/-- Spec-side inclusion rule for one file, following the words of the
filtering rule: included iff its envelope reports Some M with
max_seq less-or-equal M, or no envelope was returned for its partition. -/
def keepFileSpec {P : Type} (fPid fMaxSeq : P → Int) (ps : List IngesterPartitionInfo)
    (f : P) : Bool :=
  match lookupIngesterPartition ps (fPid f) with
  | some ip =>
    match ip.parquetMaxSequenceNumber with
    | some m => decide (fMaxSeq f ≤ m)
    | none => false
  | none => true

/-- Spec-side conflict rule for one file: a non-L0 file whose max_seq
exceeds the envelope's reported Some M. -/
def conflictFileSpec {P : Type} (fPid fMaxSeq : P → Int) (fLvl : P → CompactionLevel)
    (ps : List IngesterPartitionInfo) (f : P) : Bool :=
  match lookupIngesterPartition ps (fPid f) with
  | some ip =>
    match ip.parquetMaxSequenceNumber with
    | some m => decide (fLvl f ≠ CompactionLevel.initial ∧ m < fMaxSeq f)
    | none => false
  | none => false

/-- C1: the querier's file filter keeps exactly the files allowed by the
spec's filtering rule whenever no file is a compactor conflict, and fails
with CompactorConflict exactly when some file is a non-L0 file newer than
its envelope's reported parquet_max_seq. -/
theorem filter_parquet_files_correct {P : Type} (fPid fMaxSeq : P → Int)
    (fLvl : P → CompactionLevel) (ps : List IngesterPartitionInfo) (files : List P) :
    ((∀ f ∈ files, conflictFileSpec fPid fMaxSeq fLvl ps f = false) →
      filter_parquet_files fPid fMaxSeq fLvl ps files =
        Except.ok (files.filter (keepFileSpec fPid fMaxSeq ps))) ∧
    ((∃ f ∈ files, conflictFileSpec fPid fMaxSeq fLvl ps f = true) →
      filter_parquet_files fPid fMaxSeq fLvl ps files =
        Except.error ReconcileError.compactorConflict) := by
  induction files with
  | nil =>
    refine ⟨fun _ => rfl, fun h => ?_⟩
    obtain ⟨f, hf, -⟩ := h
    exact absurd hf (List.not_mem_nil f)
  | cons f rest ih =>
    constructor
    · intro hnc
      have hf := hnc f (List.mem_cons_self f rest)
      have hrest := ih.1 (fun g hg => hnc g (List.mem_cons_of_mem f hg))
      cases hlk : lookupIngesterPartition ps (fPid f) with
      | none =>
        simp [filter_parquet_files, keepFileSpec, hlk, hrest, List.filter_cons, Except.map]
      | some ip =>
        cases hm : ip.parquetMaxSequenceNumber with
        | none =>
          simp [filter_parquet_files, keepFileSpec, hlk, hm, hrest, List.filter_cons]
        | some m =>
          have hnc' : ¬ (fLvl f ≠ CompactionLevel.initial ∧ fMaxSeq f > m) := by
            have := hf
            simp only [conflictFileSpec, hlk, hm, gt_iff_lt] at this ⊢
            simpa using of_decide_eq_false this
          by_cases hgt : fMaxSeq f > m
          · have hl : fLvl f = CompactionLevel.initial := by
              by_contra hne
              exact hnc' ⟨hne, hgt⟩
            simp [filter_parquet_files, keepFileSpec, hlk, hm, hrest, List.filter_cons,
              hnc', hgt, hl, not_le.mpr hgt, Except.map]
          · simp [filter_parquet_files, keepFileSpec, hlk, hm, hrest, List.filter_cons,
              hnc', hgt, not_lt.mp hgt, Except.map]
    · rintro ⟨g, hg, hgc⟩
      rcases List.mem_cons.mp hg with heq | hmem
      · subst heq
        simp only [conflictFileSpec] at hgc
        simp only [filter_parquet_files]
        cases hlk : lookupIngesterPartition ps (fPid g) with
        | none => simp [hlk] at hgc
        | some ip =>
          cases hm : ip.parquetMaxSequenceNumber with
          | none => simp [hlk, hm] at hgc
          | some m =>
            simp only [hlk, hm] at hgc ⊢
            rw [if_pos (by simpa [gt_iff_lt] using of_decide_eq_true hgc)]
      · have hrest := ih.2 ⟨g, hmem, hgc⟩
        simp only [filter_parquet_files]
        cases hlk : lookupIngesterPartition ps (fPid f) with
        | none => simp [hlk, hrest, Except.map]
        | some ip =>
          cases hm : ip.parquetMaxSequenceNumber with
          | none => simp [hlk, hm, hrest]
          | some m =>
            simp only [hlk, hm]
            by_cases hc : fLvl f ≠ CompactionLevel.initial ∧ fMaxSeq f > m
            · rw [if_pos hc]
            · rw [if_neg hc]
              by_cases hgt : fMaxSeq f > m
              · rw [if_pos hgt, hrest]
              · rw [if_neg hgt, hrest]
                simp [Except.map]

/-- Witness for C1 at concrete inputs, mirroring the shape of the source's
own unit test: partition 1 reports parquet_max_seq = Some 10; an L0 file at
max_seq 9 is kept, an L0 file at max_seq 20 is dropped, and a file of an
unreported partition 4 is kept. -/
theorem filter_parquet_files_correct_witness :
    filter_parquet_files ParquetFileInfo.partitionId ParquetFileInfo.maxSequenceNumber
      ParquetFileInfo.compactionLevel
      [⟨1, 1, some 10, none⟩]
      [⟨1, 9, CompactionLevel.initial⟩, ⟨1, 20, CompactionLevel.initial⟩,
        ⟨4, 0, CompactionLevel.initial⟩] =
      Except.ok [⟨1, 9, CompactionLevel.initial⟩, ⟨4, 0, CompactionLevel.initial⟩] := by
  have h := (filter_parquet_files_correct ParquetFileInfo.partitionId
    ParquetFileInfo.maxSequenceNumber ParquetFileInfo.compactionLevel
    [⟨1, 1, some 10, none⟩]
    [⟨1, 9, CompactionLevel.initial⟩, ⟨1, 20, CompactionLevel.initial⟩,
      ⟨4, 0, CompactionLevel.initial⟩]).1 (by decide)
  rw [h]
  rfl

/-! ### Querier reconciliation: tombstone exclusion (state_reconciler.rs) -/

/-- The sequencer-keyed lookup table built at the top of
tombstone_exclude_list: each ingester partition is pushed onto the Vec of
its sequencer, so the Vec for sequencer sid holds exactly the reported
partitions of sid in report order, and an absent key corresponds to the
empty list. -/
def partitionsForSequencer (ps : List IngesterPartitionInfo) (sid : Int) :
    List IngesterPartitionInfo :=
  ps.filter (fun p => decide (p.sequencerId = sid))

/-- The body of the inner loop of tombstone_exclude_list: for one tombstone
t and one reported partition p of t's sequencer, insert the pair
(partition_id, tombstone_id) into the exclusion set when the partition
reports tombstone_max_seq = Some persistedMax with the tombstone newer than
persistedMax, or when it reports tombstone_max_seq = None. -/
def excludeForTombstone (t : TombstoneInfo) (acc : Finset (Int × Int))
    (p : IngesterPartitionInfo) : Finset (Int × Int) :=
  match p.tombstoneMaxSequenceNumber with
  | some persistedMax =>
    if t.sequenceNumber > persistedMax then insert (p.partitionId, t.id) acc else acc
  | none => insert (p.partitionId, t.id) acc

/-- tombstone_exclude_list of state_reconciler.rs: the HashSet of
(partition_id, tombstone_id) pairs to be ignored when pairing tombstones
with chunks. -/
def tombstone_exclude_list (ps : List IngesterPartitionInfo) (ts : List TombstoneInfo) :
    Finset (Int × Int) :=
  ts.foldl
    (fun acc t => (partitionsForSequencer ps t.sequencerId).foldl (excludeForTombstone t) acc)
    ∅

/-- Spec-side membership rule for the exclusion set: the pair must come
from a reported partition of the tombstone's shard whose reported
tombstone_max_seq is either absent or strictly below the tombstone's
sequence number. -/
def excludedPairSpec (ps : List IngesterPartitionInfo) (ts : List TombstoneInfo)
    (pid tid : Int) : Prop :=
  ∃ p ∈ ps, ∃ t ∈ ts, p.partitionId = pid ∧ t.id = tid ∧ p.sequencerId = t.sequencerId ∧
    (p.tombstoneMaxSequenceNumber = none ∨
      ∃ m, p.tombstoneMaxSequenceNumber = some m ∧ t.sequenceNumber > m)

/-- Membership after the inner loop over the partitions of one sequencer. -/
theorem mem_foldl_excludeForTombstone (t : TombstoneInfo)
    (l : List IngesterPartitionInfo) (acc : Finset (Int × Int)) (x : Int × Int) :
    x ∈ l.foldl (excludeForTombstone t) acc ↔
      x ∈ acc ∨ ∃ p ∈ l, x = (p.partitionId, t.id) ∧
        (p.tombstoneMaxSequenceNumber = none ∨
          ∃ m, p.tombstoneMaxSequenceNumber = some m ∧ t.sequenceNumber > m) := by
  induction l generalizing acc with
  | nil => simp
  | cons p l ih =>
    rw [List.foldl_cons, ih]
    constructor
    · rintro (hacc | ⟨q, hq, hx, hcond⟩)
      · cases hm : p.tombstoneMaxSequenceNumber with
        | some pm =>
          simp only [excludeForTombstone, hm] at hacc
          by_cases hgt : t.sequenceNumber > pm
          · rw [if_pos hgt] at hacc
            rcases Finset.mem_insert.mp hacc with hx | hx
            · exact Or.inr ⟨p, List.mem_cons_self p l, hx, Or.inr ⟨pm, hm, hgt⟩⟩
            · exact Or.inl hx
          · rw [if_neg hgt] at hacc
            exact Or.inl hacc
        | none =>
          simp only [excludeForTombstone, hm] at hacc
          rcases Finset.mem_insert.mp hacc with hx | hx
          · exact Or.inr ⟨p, List.mem_cons_self p l, hx, Or.inl hm⟩
          · exact Or.inl hx
      · exact Or.inr ⟨q, List.mem_cons_of_mem p hq, hx, hcond⟩
    · rintro (hacc | ⟨q, hq, hx, hcond⟩)
      · left
        cases hm : p.tombstoneMaxSequenceNumber with
        | some pm =>
          simp only [excludeForTombstone, hm]
          by_cases hgt : t.sequenceNumber > pm
          · rw [if_pos hgt]
            exact Finset.mem_insert_of_mem hacc
          · rw [if_neg hgt]
            exact hacc
        | none =>
          simp only [excludeForTombstone, hm]
          exact Finset.mem_insert_of_mem hacc
      · rcases List.mem_cons.mp hq with rfl | hq'
        · left
          rcases hcond with hm | ⟨m, hm, hgt⟩
          · simp only [excludeForTombstone, hm, hx]
            exact Finset.mem_insert_self _ _
          · simp only [excludeForTombstone, hm, hx]
            rw [if_pos hgt]
            exact Finset.mem_insert_self _ _
        · exact Or.inr ⟨q, hq', hx, hcond⟩

/-- Membership after the outer loop over tombstones. -/
theorem mem_foldl_tombstone_exclude (ps : List IngesterPartitionInfo)
    (ts : List TombstoneInfo) (acc : Finset (Int × Int)) (x : Int × Int) :
    x ∈ ts.foldl
        (fun acc t =>
          (partitionsForSequencer ps t.sequencerId).foldl (excludeForTombstone t) acc) acc ↔
      x ∈ acc ∨ ∃ t ∈ ts, ∃ p ∈ partitionsForSequencer ps t.sequencerId,
        x = (p.partitionId, t.id) ∧
        (p.tombstoneMaxSequenceNumber = none ∨
          ∃ m, p.tombstoneMaxSequenceNumber = some m ∧ t.sequenceNumber > m) := by
  induction ts generalizing acc with
  | nil => simp
  | cons t ts ih =>
    rw [List.foldl_cons, ih]
    rw [mem_foldl_excludeForTombstone]
    constructor
    · rintro ((hacc | ⟨p, hp, hx, hcond⟩) | ⟨u, hu, p, hp, hx, hcond⟩)
      · exact Or.inl hacc
      · exact Or.inr ⟨t, List.mem_cons_self t ts, p, hp, hx, hcond⟩
      · exact Or.inr ⟨u, List.mem_cons_of_mem t hu, p, hp, hx, hcond⟩
    · rintro (hacc | ⟨u, hu, p, hp, hx, hcond⟩)
      · exact Or.inl (Or.inl hacc)
      · rcases List.mem_cons.mp hu with rfl | hu'
        · exact Or.inl (Or.inr ⟨p, hp, hx, hcond⟩)
        · exact Or.inr ⟨u, hu', p, hp, hx, hcond⟩

/-- C2: the tombstone exclusion set contains exactly the
(partition_id, tombstone_id) pairs where the partition was reported by an
ingester for the tombstone's shard and the tombstone is newer than the
partition's reported tombstone_max_seq (or that report is None). Pairs with
sequence number at most the reported maximum are not excluded, and
tombstones of shards with no reported partitions produce no exclusions. -/
theorem tombstone_exclude_list_correct (ps : List IngesterPartitionInfo)
    (ts : List TombstoneInfo) (pid tid : Int) :
    (pid, tid) ∈ tombstone_exclude_list ps ts ↔ excludedPairSpec ps ts pid tid := by
  unfold tombstone_exclude_list excludedPairSpec
  rw [mem_foldl_tombstone_exclude]
  simp only [Finset.not_mem_empty, false_or]
  constructor
  · rintro ⟨t, ht, p, hp, hx, hcond⟩
    rcases List.mem_filter.mp hp with ⟨hpmem, hpsid⟩
    refine ⟨p, hpmem, t, ht, ?_, ?_, of_decide_eq_true hpsid, hcond⟩
    · exact congrArg Prod.fst hx.symm
    · exact congrArg Prod.snd hx.symm
  · rintro ⟨p, hp, t, ht, hpid, htid, hsid, hcond⟩
    refine ⟨t, ht, p, List.mem_filter.mpr ⟨hp, decide_eq_true hsid⟩, ?_, hcond⟩
    rw [hpid, htid]

/-- Witness for C2 at concrete inputs: for sequencer 1, partition 1
reporting tombstone_max_seq = Some 10, the tombstone with id 6 and
sequence number 11 is excluded. -/
theorem tombstone_exclude_list_correct_witness :
    ((1 : Int), (6 : Int)) ∈
      tombstone_exclude_list [⟨1, 1, none, some 10⟩] [⟨6, 1, 11⟩] :=
  (tombstone_exclude_list_correct [⟨1, 1, none, some 10⟩] [⟨6, 1, 11⟩] 1 6).mpr
    ⟨⟨1, 1, none, some 10⟩, List.mem_singleton.mpr rfl, ⟨6, 1, 11⟩,
      List.mem_singleton.mpr rfl, rfl, rfl, rfl, Or.inr ⟨10, rfl, by decide⟩⟩

/-! ### Querier reconciliation: chunk building (state_reconciler.rs) -/

/-- The data of a querier parquet chunk that build_chunks_from_parquet
reads and writes: the catalog metadata behind chunk.meta() plus the
attached delete predicates. Delete predicates are converted one-to-one
from tombstones, so the attached list is embedded as the list of the
tombstones whose predicates are attached. -/
structure QuerierChunkData where
  partitionId : Int
  sequencerId : Int
  parquetFileId : Int
  minSequenceNumber : Int
  maxSequenceNumber : Int
  compactionLevel : CompactionLevel
  deletePredicates : List TombstoneInfo
deriving DecidableEq, Repr

/-- The predicate-attachment loop body of build_chunks_from_parquet for one
chunk and one tombstone of the chunk's sequencer: the tombstone's predicate
is attached unless the (partition, tombstone) pair is excluded, the
tombstone is at or below the chunk's max sequence number, or a
processed-tombstone record exists for the (file, tombstone) pair. The
source checks these three conditions in this order with continue; the
conjunction is the same filter. processed models the catalog's
processed-tombstone exists lookup. -/
def attachTombstone (processed : Int → Int → Bool) (excl : Finset (Int × Int))
    (c : QuerierChunkData) (t : TombstoneInfo) : Bool :=
  decide ((c.partitionId, t.id) ∉ excl) &&
    decide (t.sequenceNumber > c.maxSequenceNumber) &&
    !(processed c.parquetFileId t.id)

/-- build_chunks_from_parquet of state_reconciler.rs: compute the tombstone
exclusion set, group tombstones by sequencer, filter the parquet files
(propagating CompactorConflict), and attach to each surviving chunk the
delete predicates of the passing tombstones of its sequencer. When no
tombstone exists for the chunk's sequencer the chunk is passed through
unchanged (the by-sequencer HashMap has no entry). -/
def build_chunks_from_parquet (processed : Int → Int → Bool)
    (ingesterPartitions : List IngesterPartitionInfo) (tombstones : List TombstoneInfo)
    (parquetFiles : List QuerierChunkData) :
    Except ReconcileError (List QuerierChunkData) :=
  let excl := tombstone_exclude_list ingesterPartitions tombstones
  match filter_parquet_files QuerierChunkData.partitionId QuerierChunkData.maxSequenceNumber
      QuerierChunkData.compactionLevel ingesterPartitions parquetFiles with
  | Except.error e => Except.error e
  | Except.ok files =>
    Except.ok (files.map (fun c =>
      let group := tombstones.filter (fun t => decide (t.sequencerId = c.sequencerId))
      if group.isEmpty then c
      else { c with deletePredicates := group.filter (attachTombstone processed excl c) }))

/-- C3: for every surviving chunk produced by build_chunks_from_parquet
from catalog chunks (which carry no delete predicates yet), a tombstone's
predicate is attached exactly when the tombstone belongs to the chunk's
sequencer, the (partition, tombstone) pair is not excluded, the tombstone
is strictly newer than the chunk's max sequence number, and no
processed-tombstone record exists; consequently a processed tombstone is
never attached, and a tombstone at or below the chunk's min sequence
number (min at most max) is never attached. -/
theorem build_chunks_from_parquet_tombstones (processed : Int → Int → Bool)
    (ingesterPartitions : List IngesterPartitionInfo) (tombstones : List TombstoneInfo)
    (parquetFiles : List QuerierChunkData) (out : List QuerierChunkData)
    (hok : build_chunks_from_parquet processed ingesterPartitions tombstones parquetFiles =
      Except.ok out)
    (hclean : ∀ c ∈ parquetFiles, c.deletePredicates = []) :
    ∀ c ∈ out,
      (∀ t : TombstoneInfo,
        t ∈ c.deletePredicates ↔
          t ∈ tombstones ∧ t.sequencerId = c.sequencerId ∧
            (c.partitionId, t.id) ∉ tombstone_exclude_list ingesterPartitions tombstones ∧
            t.sequenceNumber > c.maxSequenceNumber ∧
            processed c.parquetFileId t.id = false) ∧
      (∀ t ∈ tombstones, processed c.parquetFileId t.id = true →
        t ∉ c.deletePredicates) ∧
      (c.minSequenceNumber ≤ c.maxSequenceNumber →
        ∀ t ∈ tombstones, t.sequenceNumber ≤ c.minSequenceNumber →
          t ∉ c.deletePredicates) := by
  unfold build_chunks_from_parquet at hok
  cases hfil : filter_parquet_files QuerierChunkData.partitionId
      QuerierChunkData.maxSequenceNumber QuerierChunkData.compactionLevel
      ingesterPartitions parquetFiles with
  | error e => rw [hfil] at hok; exact absurd hok (by simp)
  | ok files =>
    rw [hfil] at hok
    have hout := (Except.ok.injEq _ _).mp hok
    subst hout
    intro c hc
    rcases List.mem_map.mp hc with ⟨c0, hc0, hceq⟩
    have hc0mem : c0 ∈ parquetFiles := by
      have hsub := (filter_parquet_files_correct QuerierChunkData.partitionId
        QuerierChunkData.maxSequenceNumber QuerierChunkData.compactionLevel
        ingesterPartitions parquetFiles)
      by_cases hnc : ∀ f ∈ parquetFiles,
          conflictFileSpec QuerierChunkData.partitionId QuerierChunkData.maxSequenceNumber
            QuerierChunkData.compactionLevel ingesterPartitions f = false
      · have := hsub.1 hnc
        rw [hfil] at this
        have hfe := (Except.ok.injEq _ _).mp this
        exact List.mem_of_mem_filter (hfe ▸ hc0)
      · push_neg at hnc
        rcases hnc with ⟨f, hf, hfc⟩
        have := hsub.2 ⟨f, hf, by simpa using hfc⟩
        rw [hfil] at this
        exact absurd this (by simp)
    have hmain : ∀ t : TombstoneInfo,
        t ∈ c.deletePredicates ↔
          t ∈ tombstones ∧ t.sequencerId = c.sequencerId ∧
            (c.partitionId, t.id) ∉ tombstone_exclude_list ingesterPartitions tombstones ∧
            t.sequenceNumber > c.maxSequenceNumber ∧
            processed c.parquetFileId t.id = false := by
      intro t
      by_cases hgrp :
          (tombstones.filter (fun u => decide (u.sequencerId = c0.sequencerId))).isEmpty
      · rw [← hceq]
        simp only [hgrp, if_pos]
        have hempty := hclean c0 hc0mem
        rw [hempty]
        simp only [List.not_mem_nil, false_iff]
        rintro ⟨ht, hts, -⟩
        have : t ∈ tombstones.filter (fun u => decide (u.sequencerId = c0.sequencerId)) := by
          refine List.mem_filter.mpr ⟨ht, ?_⟩
          exact decide_eq_true hts
        rw [List.isEmpty_iff] at hgrp
        rw [hgrp] at this
        exact absurd this (List.not_mem_nil t)
      · have hfields : c.partitionId = c0.partitionId ∧ c.sequencerId = c0.sequencerId ∧
            c.parquetFileId = c0.parquetFileId ∧ c.maxSequenceNumber = c0.maxSequenceNumber ∧
            c.deletePredicates =
              (tombstones.filter (fun u => decide (u.sequencerId = c0.sequencerId))).filter
                (attachTombstone processed
                  (tombstone_exclude_list ingesterPartitions tombstones) c0) := by
          rw [← hceq]
          simp [hgrp]
        rcases hfields with ⟨hp, hs, hf, hm, hd⟩
        rw [hd]
        constructor
        · intro hmem
          rcases List.mem_filter.mp hmem with ⟨hmem', hatt⟩
          rcases List.mem_filter.mp hmem' with ⟨ht, hts⟩
          have hts' := of_decide_eq_true hts
          unfold attachTombstone at hatt
          simp only [Bool.and_eq_true, decide_eq_true_eq, Bool.not_eq_true'] at hatt
          exact ⟨ht, by rw [hts', hs], by rw [hp]; exact hatt.1.1,
            by rw [hm]; exact hatt.1.2, by rw [hf]; exact hatt.2⟩
        · rintro ⟨ht, hts, hexcl, hgt, hproc⟩
          refine List.mem_filter.mpr ⟨List.mem_filter.mpr ⟨ht, decide_eq_true (by rw [hts, hs])⟩, ?_⟩
          unfold attachTombstone
          simp only [Bool.and_eq_true, decide_eq_true_eq, Bool.not_eq_true']
          exact ⟨⟨by rw [← hp]; exact hexcl, by rw [← hm]; exact hgt⟩, by rw [← hf]; exact hproc⟩
    refine ⟨hmain, ?_, ?_⟩
    · intro t ht hproc hmem
      have := ((hmain t).mp hmem).2.2.2.2
      rw [hproc] at this
      exact absurd this (by simp)
    · intro hminmax t ht hle hmem
      have hgt := ((hmain t).mp hmem).2.2.2.1
      have : t.sequenceNumber ≤ c.maxSequenceNumber := le_trans hle hminmax
      exact absurd hgt (not_lt.mpr this)

/-- Witness for C3 at concrete inputs: one ingester partition reporting
tombstone_max_seq = Some 10 on sequencer 1, one unprocessed tombstone at
sequence 8 of the same sequencer, and one L0 chunk spanning sequences 2-5:
the tombstone (below the reported max, above the chunk max) is attached. -/
theorem build_chunks_from_parquet_tombstones_witness :
    ∃ out, build_chunks_from_parquet (fun _ _ => false)
        [⟨1, 1, some 10, some 10⟩] [⟨7, 1, 8⟩]
        [⟨1, 1, 100, 2, 5, CompactionLevel.initial, []⟩] = Except.ok out ∧
      ∀ c ∈ out, ⟨7, 1, 8⟩ ∈ c.deletePredicates := by
  refine ⟨[⟨1, 1, 100, 2, 5, CompactionLevel.initial, [⟨7, 1, 8⟩]⟩], by rfl, ?_⟩
  intro c hc
  have h := build_chunks_from_parquet_tombstones (fun _ _ => false)
    [⟨1, 1, some 10, some 10⟩] [⟨7, 1, 8⟩]
    [⟨1, 1, 100, 2, 5, CompactionLevel.initial, []⟩]
    [⟨1, 1, 100, 2, 5, CompactionLevel.initial, [⟨7, 1, 8⟩]⟩]
    (by rfl) (by intro c hc; simp at hc; rw [hc]) c hc
  refine (h.1 ⟨7, 1, 8⟩).mpr ?_
  rcases List.mem_singleton.mp hc with rfl
  refine ⟨List.mem_singleton.mpr rfl, rfl, ?_, by decide, rfl⟩
  intro hmem
  have := (tombstone_exclude_list_correct [⟨1, 1, some 10, some 10⟩] [⟨7, 1, 8⟩] 1 7).mp hmem
  rcases this with ⟨p, hp, t, ht, -, -, -, hcond⟩
  rcases List.mem_singleton.mp hp with rfl
  rcases List.mem_singleton.mp ht with rfl
  rcases hcond with hnone | ⟨m, hm, hgt⟩
  · exact absurd hnone (by decide)
  · have : m = 10 := by
      have := hm
      simp at this
      exact this.symm
    rw [this] at hgt
    exact absurd hgt (by decide)

/-! ### Ingester lifecycle manager (ingester/src/lifecycle.rs) -/

/-- LifecycleConfig. Durations are embedded as nanosecond counts. -/
structure LifecycleConfig where
  pauseIngestSize : Nat
  persistMemoryThreshold : Nat
  partitionSizeThreshold : Nat
  partitionAgeThreshold : Nat
  partitionColdThreshold : Nat
deriving DecidableEq, Repr

/-- PartitionLifecycleStats: the per-partition state the manager tracks.
Times are nanoseconds since the epoch of the mock time provider. -/
structure PartitionLifecycleStats where
  sequencerId : Int
  partitionId : Int
  firstWrite : Nat
  lastWrite : Nat
  bytesWritten : Nat
  firstSequenceNumber : Int
deriving DecidableEq, Repr

/-- LifecycleState: the mutex-protected state shared between the handle and
the manager. partition_stats is a BTreeMap keyed by partition id; it is
embedded as a list kept sorted by partitionId, which is the map's
iteration order. -/
structure LifecycleState where
  totalBytes : Nat
  partitionStats : List PartitionLifecycleStats
deriving DecidableEq, Repr

/-- The BTreeMap entry(partition_id).or_insert_with(default) access of
log_write followed by the closure f mutating the (present or freshly
inserted) entry. Keeps the list sorted by partitionId. -/
def insertOrModifyStats (d : PartitionLifecycleStats)
    (f : PartitionLifecycleStats → PartitionLifecycleStats) :
    List PartitionLifecycleStats → List PartitionLifecycleStats
  | [] => [f d]
  | s :: rest =>
    if d.partitionId < s.partitionId then f d :: s :: rest
    else if d.partitionId = s.partitionId then f s :: rest
    else s :: insertOrModifyStats d f rest

/-- LifecycleHandleImpl::log_write (ingester/src/lifecycle.rs): create or
update the partition's stats (adding the bytes and refreshing last_write),
add the bytes to total_bytes, and return whether the new total exceeds
pause_ingest_size. -/
def log_write (config : LifecycleConfig) (s : LifecycleState) (now : Nat)
    (partitionId sequencerId sequenceNumber : Int) (bytesWritten : Nat) :
    LifecycleState × Bool :=
  let fresh : PartitionLifecycleStats :=
    { sequencerId := sequencerId, partitionId := partitionId, firstWrite := now,
      lastWrite := now, bytesWritten := 0, firstSequenceNumber := sequenceNumber }
  let stats := insertOrModifyStats fresh
    (fun st => { st with bytesWritten := st.bytesWritten + bytesWritten, lastWrite := now })
    s.partitionStats
  let total := s.totalBytes + bytesWritten
  ({ totalBytes := total, partitionStats := stats }, decide (total > config.pauseIngestSize))

/-- LifecycleHandleImpl::can_resume_ingest: total_bytes strictly below
pause_ingest_size. -/
def can_resume_ingest (config : LifecycleConfig) (s : LifecycleState) : Bool :=
  decide (s.totalBytes < config.pauseIngestSize)

/-- Lookup of one partition's stats in the state (BTreeMap get). -/
def statsLookup (l : List PartitionLifecycleStats) (pid : Int) :
    Option PartitionLifecycleStats :=
  l.find? (fun st => decide (st.partitionId = pid))

/-- Effect of insertOrModifyStats on the lookup of the touched key. -/
theorem statsLookup_insertOrModifyStats (d : PartitionLifecycleStats)
    (f : PartitionLifecycleStats → PartitionLifecycleStats)
    (hf : ∀ st, (f st).partitionId = st.partitionId)
    (l : List PartitionLifecycleStats)
    (hsorted : List.Pairwise (fun a b => a.partitionId < b.partitionId) l) :
    statsLookup (insertOrModifyStats d f l) d.partitionId =
      some (f ((statsLookup l d.partitionId).getD d)) := by
  induction l with
  | nil => simp [insertOrModifyStats, statsLookup, List.find?, hf d]
  | cons s rest ih =>
    rcases List.pairwise_cons.mp hsorted with ⟨hall, hrest⟩
    by_cases hlt : d.partitionId < s.partitionId
    · have hnone : statsLookup (s :: rest) d.partitionId = none := by
        apply List.find?_eq_none.mpr
        intro x hx
        simp only [decide_eq_true_eq]
        rcases List.mem_cons.mp hx with rfl | hx'
        · intro h
          rw [h] at hlt
          exact absurd hlt (lt_irrefl _)
        · intro h
          have := hall x hx'
          rw [h] at this
          exact absurd (hlt.trans this) (lt_irrefl _)
      rw [hnone]
      simp only [insertOrModifyStats, if_pos hlt, statsLookup, Option.getD]
      rw [List.find?_cons_of_pos _ (by simp [hf d])]
    · by_cases heq : d.partitionId = s.partitionId
      · have hfind : statsLookup (s :: rest) d.partitionId = some s := by
          simp only [statsLookup]
          rw [List.find?_cons_of_pos _ (by simp [heq.symm])]
        rw [hfind]
        simp only [insertOrModifyStats, if_neg hlt, if_pos heq, statsLookup, Option.getD]
        rw [List.find?_cons_of_pos _ (by simp [hf s, heq.symm])]
      · have hne : ¬ s.partitionId = d.partitionId := fun h => heq h.symm
        have hskip : statsLookup (s :: rest) d.partitionId =
            statsLookup rest d.partitionId := by
          simp only [statsLookup]
          rw [List.find?_cons_of_neg _ (by simp [hne])]
        rw [hskip]
        simp only [insertOrModifyStats, if_neg hlt, if_neg heq]
        have hskip2 : statsLookup (s :: insertOrModifyStats d f rest) d.partitionId =
            statsLookup (insertOrModifyStats d f rest) d.partitionId := by
          simp only [statsLookup]
          rw [List.find?_cons_of_neg _ (by simp [hne])]
        rw [hskip2, ih hrest]

/-- C6: log_write adds the write's byte count to the partition's stats
(creating the entry at zero first when absent) and to total_bytes, and
returns true exactly when the updated total_bytes strictly exceeds
pause_ingest_size; can_resume_ingest is true exactly when total_bytes is
strictly below pause_ingest_size. -/
theorem log_write_can_resume_correct (config : LifecycleConfig) (s : LifecycleState)
    (now : Nat) (pid sid seq : Int) (bytes : Nat)
    (hs : List.Pairwise (fun a b => a.partitionId < b.partitionId) s.partitionStats) :
    ((log_write config s now pid sid seq bytes).1.totalBytes = s.totalBytes + bytes) ∧
    ((log_write config s now pid sid seq bytes).2 = true ↔
      config.pauseIngestSize < s.totalBytes + bytes) ∧
    ((statsLookup (log_write config s now pid sid seq bytes).1.partitionStats pid).map
        PartitionLifecycleStats.bytesWritten =
      some (((statsLookup s.partitionStats pid).map
        PartitionLifecycleStats.bytesWritten).getD 0 + bytes)) ∧
    (∀ s2 : LifecycleState,
      can_resume_ingest config s2 = true ↔ s2.totalBytes < config.pauseIngestSize) := by
  refine ⟨rfl, by simp [log_write], ?_, fun s2 => by simp [can_resume_ingest]⟩
  have h := statsLookup_insertOrModifyStats
    { sequencerId := sid, partitionId := pid, firstWrite := now, lastWrite := now,
      bytesWritten := 0, firstSequenceNumber := seq }
    (fun st => { st with bytesWritten := st.bytesWritten + bytes, lastWrite := now })
    (fun _ => rfl)
    s.partitionStats hs
  simp only [log_write]
  rw [h]
  cases hl : statsLookup s.partitionStats pid with
  | none => simp
  | some st => simp

/-- Witness for C6: from the empty state, logging 25 bytes to partition 1
with pause_ingest_size 30 does not pause, records 25 bytes for the
partition, and ingest may resume. -/
theorem log_write_can_resume_correct_witness :
    ((log_write ⟨30, 20, 20, 1000000000, 1000000000⟩ ⟨0, []⟩ 0 1 1 1 25).1.totalBytes =
      0 + 25) ∧
    ¬ (30 < 0 + 25) ∧
    can_resume_ingest ⟨30, 20, 20, 1000000000, 1000000000⟩
      (log_write ⟨30, 20, 20, 1000000000, 1000000000⟩ ⟨0, []⟩ 0 1 1 1 25).1 = true := by
  have h := log_write_can_resume_correct ⟨30, 20, 20, 1000000000, 1000000000⟩ ⟨0, []⟩ 0 1 1 1 25
    (by simp)
  refine ⟨h.1, by decide, ?_⟩
  refine (h.2.2.2 (log_write ⟨30, 20, 20, 1000000000, 1000000000⟩ ⟨0, []⟩ 0 1 1 1 25).1).mpr ?_
  rw [h.1]
  decide

/-- The first-phase trigger predicates of LifecycleManager::maybe_persist.
checked_duration_since(earlier) yields None when now is before the stored
time, making the trigger false; with Nat times the truncated subtraction
also yields 0 and the strict comparison is false, so the embedding
coincides. -/
def agedOut (config : LifecycleConfig) (now : Nat) (st : PartitionLifecycleStats) : Bool :=
  decide (now - st.firstWrite > config.partitionAgeThreshold) &&
    decide (st.firstWrite ≤ now)

/-- Cold trigger: no write for longer than partition_cold_threshold. -/
def isCold (config : LifecycleConfig) (now : Nat) (st : PartitionLifecycleStats) : Bool :=
  decide (now - st.lastWrite > config.partitionColdThreshold) &&
    decide (st.lastWrite ≤ now)

/-- Size trigger: more bytes written than partition_size_threshold. -/
def sizedOut (config : LifecycleConfig) (st : PartitionLifecycleStats) : Bool :=
  decide (st.bytesWritten > config.partitionSizeThreshold)

/-- The closure of the first-phase partition split: aged_out || sized_out
|| is_cold (each metric counter is incremented independently when its
predicate fires; the combination below is the partition predicate). -/
def firstPhaseTrigger (config : LifecycleConfig) (now : Nat)
    (st : PartitionLifecycleStats) : Bool :=
  agedOut config now st || sizedOut config st || isCold config now st

/-- The memory-pressure loop of maybe_persist: walk the by-bytes-descending
rest and, while the running total is still at or above
persist_memory_threshold, move partitions into to_persist (subtracting
their bytes and counting the memory trigger); afterwards the remaining
partitions stay, in order. Returns (finalTotal, moved, remaining,
memoryTriggerCount). -/
def memoryPhase (threshold : Nat) :
    Nat → List PartitionLifecycleStats →
      Nat × List PartitionLifecycleStats × List PartitionLifecycleStats × Nat
  | total, [] => (total, [], [], 0)
  | total, st :: rest =>
    if total ≥ threshold then
      let r := memoryPhase threshold (total - st.bytesWritten) rest
      (r.1, st :: r.2.1, r.2.2.1, r.2.2.2 + 1)
    else
      let r := memoryPhase threshold total rest
      (r.1, r.2.1, st :: r.2.2.1, r.2.2.2)

/-- Stable insertion for sort_by comparing bytes_written descending
(Vec::sort_by is stable: equal keys keep their relative order). -/
def insertByBytesDesc (x : PartitionLifecycleStats) :
    List PartitionLifecycleStats → List PartitionLifecycleStats
  | [] => [x]
  | y :: rest =>
    if y.bytesWritten < x.bytesWritten then x :: y :: rest
    else y :: insertByBytesDesc x rest

/-- Stable sort of the rest partitions by bytes_written descending. -/
def sortByBytesDesc : List PartitionLifecycleStats → List PartitionLifecycleStats
  | [] => []
  | x :: rest => insertByBytesDesc x (sortByBytesDesc rest)

/-- BTreeMap entry(sequencer_id).and_modify(keep max).or_insert of the
sequencer_maxes map: a sorted association list from sequencer id to the
largest first_sequence_number seen among the just-persisted partitions. -/
def insertSequencerMax : List (Int × Int) → Int → Int → List (Int × Int)
  | [], sid, sn => [(sid, sn)]
  | (k, v) :: rest, sid, sn =>
    if sid < k then (sid, sn) :: (k, v) :: rest
    else if sid = k then (k, max v sn) :: rest
    else (k, v) :: insertSequencerMax rest sid sn

/-- The sequencer_maxes map accumulated over the partitions selected for
persistence. -/
def sequencerMaxes (toPersist : List PartitionLifecycleStats) : List (Int × Int) :=
  toPersist.foldl (fun m st => insertSequencerMax m st.sequencerId st.firstSequenceNumber) []

/-- Iterator min over a list of sequence numbers (Iterator::min). -/
def seqMin : List Int → Option Int
  | [] => none
  | x :: rest =>
    match seqMin rest with
    | none => some x
    | some y => some (min x y)

/-- Iterator max shape of the sequencer_maxes fold, used to state what the
fold computes. -/
def seqMax : List Int → Option Int
  | [] => none
  | x :: rest =>
    match seqMax rest with
    | none => some x
    | some y => some (max x y)

/-- The update value per sequencer: the minimum first_sequence_number of
the still-buffered (rest) partitions of that sequencer, or the remembered
sequencer max when none remain (min().unwrap_or(sequence_number)). -/
def minUnpersisted (rest : List PartitionLifecycleStats) (sid sn : Int) : Int :=
  match seqMin ((rest.filter (fun st => decide (st.sequencerId = sid))).map
      PartitionLifecycleStats.firstSequenceNumber) with
  | some m => m
  | none => sn

/-- The observable outcome of one LifecycleManager::maybe_persist
evaluation. -/
structure MaybePersistOutcome where
  toPersist : List PartitionLifecycleStats
  rest : List PartitionLifecycleStats
  newState : LifecycleState
  sequencerUpdates : List (Int × Int)
  ageTriggerCount : Nat
  coldTriggerCount : Nat
  sizeTriggerCount : Nat
  memoryTriggerCount : Nat
deriving Repr

/-- LifecycleManager::maybe_persist (ingester/src/lifecycle.rs) as a pure
function of the snapshot of the lifecycle state:

1. split the partition stats into to_persist and rest by the age, size and
   cold triggers, incrementing one metric per firing trigger;
2. subtract the selected partitions' bytes from the running total;
3. while still at or above persist_memory_threshold, move partitions from
   rest (sorted by bytes descending) into to_persist, counting the memory
   trigger;
4. spawn one persist task per selected partition; each removes the
   partition's stats entry and subtracts its bytes from total_bytes;
5. when anything was persisted, record per touched sequencer the new
   min_unpersisted_sequence_number: the minimum first_sequence_number of
   that sequencer's remaining partitions, or the remembered max when none
   remain.

Concurrent log_write calls during the evaluation are not modelled: the
function consumes one consistent snapshot. -/
def maybe_persist (config : LifecycleConfig) (now : Nat) (s : LifecycleState) :
    MaybePersistOutcome :=
  let parts := s.partitionStats.partition (fun st => firstPhaseTrigger config now st)
  let toPersist0 := parts.1
  let rest0 := parts.2
  let ageCount := (s.partitionStats.filter (fun st => agedOut config now st)).length
  let coldCount := (s.partitionStats.filter (fun st => isCold config now st)).length
  let sizeCount := (s.partitionStats.filter (fun st => sizedOut config st)).length
  let totalAfter0 := s.totalBytes - (toPersist0.map PartitionLifecycleStats.bytesWritten).sum
  let phase2 :=
    if totalAfter0 > config.persistMemoryThreshold then
      let r := memoryPhase config.persistMemoryThreshold totalAfter0 (sortByBytesDesc rest0)
      (toPersist0 ++ r.2.1, r.2.2.1, r.2.2.2)
    else
      (toPersist0, rest0, 0)
  let toPersist := phase2.1
  let rest := phase2.2.1
  let maxes := sequencerMaxes toPersist
  let newState : LifecycleState :=
    { totalBytes := s.totalBytes - (toPersist.map PartitionLifecycleStats.bytesWritten).sum,
      partitionStats := s.partitionStats.filter
        (fun st => toPersist.all (fun p => decide (p.partitionId ≠ st.partitionId))) }
  { toPersist := toPersist
    rest := rest
    newState := newState
    sequencerUpdates :=
      if toPersist.isEmpty then []
      else maxes.map (fun kv => (kv.1, minUnpersisted rest kv.1 kv.2))
    ageTriggerCount := ageCount
    coldTriggerCount := coldCount
    sizeTriggerCount := sizeCount
    memoryTriggerCount := phase2.2.2 }

/-- Lookup in the sequencer_maxes association list. -/
def assocLookup : List (Int × Int) → Int → Option Int
  | [], _ => none
  | (k, v) :: rest, sid => if k = sid then some v else assocLookup rest sid

/-- Combine two optional maxima. -/
def optMax : Option Int → Option Int → Option Int
  | none, b => b
  | some x, none => some x
  | some x, some y => some (max x y)

theorem optMax_none_right (a : Option Int) : optMax a none = a := by
  cases a <;> rfl

theorem optMax_assoc (a b c : Option Int) :
    optMax (optMax a b) c = optMax a (optMax b c) := by
  cases a <;> cases b <;> cases c <;> simp [optMax, max_assoc]

theorem seqMax_cons (x : Int) (l : List Int) :
    seqMax (x :: l) = optMax (some x) (seqMax l) := by
  cases h : seqMax l <;> simp [seqMax, h, optMax]

theorem mem_insertSequencerMax (m : List (Int × Int)) (sid sn : Int) (x : Int × Int)
    (hx : x ∈ insertSequencerMax m sid sn) : x.1 = sid ∨ x ∈ m := by
  induction m with
  | nil =>
    simp [insertSequencerMax] at hx
    rw [hx]
    exact Or.inl rfl
  | cons kv rest ih =>
    obtain ⟨k0, v0⟩ := kv
    by_cases hlt : sid < k0
    · simp only [insertSequencerMax, if_pos hlt] at hx
      rcases List.mem_cons.mp hx with rfl | hx'
      · exact Or.inl rfl
      · exact Or.inr hx'
    · by_cases heq : sid = k0
      · simp only [insertSequencerMax, if_neg hlt, if_pos heq] at hx
        rcases List.mem_cons.mp hx with rfl | hx'
        · exact Or.inl heq.symm
        · exact Or.inr (List.mem_cons_of_mem _ hx')
      · simp only [insertSequencerMax, if_neg hlt, if_neg heq] at hx
        rcases List.mem_cons.mp hx with rfl | hx'
        · exact Or.inr (List.mem_cons_self _ _)
        · rcases ih hx' with h | h
          · exact Or.inl h
          · exact Or.inr (List.mem_cons_of_mem _ h)

theorem insertSequencerMax_pairwise (m : List (Int × Int)) (sid sn : Int)
    (hm : List.Pairwise (fun a b => a.1 < b.1) m) :
    List.Pairwise (fun a b => a.1 < b.1) (insertSequencerMax m sid sn) := by
  induction m with
  | nil => simp [insertSequencerMax]
  | cons kv rest ih =>
    obtain ⟨k0, v0⟩ := kv
    rcases List.pairwise_cons.mp hm with ⟨hall, hrest⟩
    by_cases hlt : sid < k0
    · simp only [insertSequencerMax, if_pos hlt]
      refine List.pairwise_cons.mpr ⟨?_, hm⟩
      intro y hy
      rcases List.mem_cons.mp hy with rfl | hy'
      · exact hlt
      · exact hlt.trans (hall y hy')
    · by_cases heq : sid = k0
      · simp only [insertSequencerMax, if_neg hlt, if_pos heq]
        exact List.pairwise_cons.mpr ⟨hall, hrest⟩
      · simp only [insertSequencerMax, if_neg hlt, if_neg heq]
        refine List.pairwise_cons.mpr ⟨?_, ih hrest⟩
        intro y hy
        rcases mem_insertSequencerMax rest sid sn y hy with h | h
        · rw [h]
          rcases lt_trichotomy sid k0 with h' | h' | h'
          · exact absurd h' hlt
          · exact absurd h' heq
          · exact h'
        · exact hall y h

theorem assocLookup_eq_none_of_lt (m : List (Int × Int)) (sid : Int)
    (h : ∀ kv ∈ m, sid < kv.1) : assocLookup m sid = none := by
  induction m with
  | nil => rfl
  | cons kv rest ih =>
    obtain ⟨k0, v0⟩ := kv
    have hk0 : ¬ k0 = sid := by
      intro hk
      have := h (k0, v0) (List.mem_cons_self _ _)
      rw [hk] at this
      exact absurd this (lt_irrefl _)
    simp only [assocLookup, if_neg hk0]
    exact ih (fun kv hkv => h kv (List.mem_cons_of_mem _ hkv))

theorem assocLookup_insertSequencerMax_self (m : List (Int × Int)) (sid sn : Int)
    (hm : List.Pairwise (fun a b => a.1 < b.1) m) :
    assocLookup (insertSequencerMax m sid sn) sid =
      optMax (assocLookup m sid) (some sn) := by
  induction m with
  | nil => simp [insertSequencerMax, assocLookup, optMax]
  | cons kv rest ih =>
    obtain ⟨k0, v0⟩ := kv
    rcases List.pairwise_cons.mp hm with ⟨hall, hrest⟩
    by_cases hlt : sid < k0
    · have hnone : assocLookup ((k0, v0) :: rest) sid = none := by
        apply assocLookup_eq_none_of_lt
        intro kv hkv
        rcases List.mem_cons.mp hkv with rfl | hkv'
        · exact hlt
        · exact hlt.trans (hall kv hkv')
      rw [hnone]
      simp [insertSequencerMax, hlt, assocLookup, optMax]
    · by_cases heq : sid = k0
      · subst heq
        simp [insertSequencerMax, hlt, assocLookup, optMax]
      · have hk0 : ¬ k0 = sid := fun h => heq h.symm
        simp only [insertSequencerMax, if_neg hlt, if_neg heq, assocLookup, if_neg hk0]
        exact ih hrest

theorem assocLookup_insertSequencerMax_other (m : List (Int × Int)) (sid sn k : Int)
    (hk : ¬ k = sid) :
    assocLookup (insertSequencerMax m sid sn) k = assocLookup m k := by
  have hsk : ¬ sid = k := fun h => hk h.symm
  induction m with
  | nil => simp [insertSequencerMax, assocLookup, hsk]
  | cons kv rest ih =>
    obtain ⟨k0, v0⟩ := kv
    by_cases hlt : sid < k0
    · simp [insertSequencerMax, hlt, assocLookup, hsk]
    · by_cases heq : sid = k0
      · have hk0 : ¬ k0 = k := fun h => hsk (heq.trans h)
        simp [insertSequencerMax, hlt, heq, assocLookup, hk0]
      · by_cases hk0 : k0 = k
        · subst hk0
          simp [insertSequencerMax, hlt, heq, assocLookup]
        · simp [insertSequencerMax, hlt, heq, assocLookup, hk0, ih]

theorem assocLookup_foldl_insertSequencerMax (l : List PartitionLifecycleStats)
    (m : List (Int × Int)) (k : Int)
    (hm : List.Pairwise (fun a b => a.1 < b.1) m) :
    assocLookup
        (l.foldl (fun m st => insertSequencerMax m st.sequencerId st.firstSequenceNumber) m) k =
      optMax (assocLookup m k)
        (seqMax ((l.filter (fun st => decide (st.sequencerId = k))).map
          PartitionLifecycleStats.firstSequenceNumber)) := by
  induction l generalizing m with
  | nil => simp [seqMax, optMax_none_right]
  | cons st l ih =>
    rw [List.foldl_cons,
      ih _ (insertSequencerMax_pairwise m st.sequencerId st.firstSequenceNumber hm)]
    by_cases hk : k = st.sequencerId
    · have hd : decide (st.sequencerId = k) = true := decide_eq_true hk.symm
      rw [show (st :: l).filter (fun u => decide (u.sequencerId = k)) =
          st :: l.filter (fun u => decide (u.sequencerId = k)) from by
        rw [List.filter_cons, if_pos hd]]
      rw [List.map_cons, seqMax_cons, ← optMax_assoc]
      rw [hk, assocLookup_insertSequencerMax_self m st.sequencerId st.firstSequenceNumber hm]
    · have hd : decide (st.sequencerId = k) = false :=
        decide_eq_false (fun h => hk h.symm)
      rw [show (st :: l).filter (fun u => decide (u.sequencerId = k)) =
          l.filter (fun u => decide (u.sequencerId = k)) from by
        rw [List.filter_cons, hd]
        simp]
      rw [assocLookup_insertSequencerMax_other m st.sequencerId st.firstSequenceNumber k hk]

theorem assocLookup_eq_some_iff_mem (m : List (Int × Int))
    (hm : List.Pairwise (fun a b => a.1 < b.1) m) (k v : Int) :
    (k, v) ∈ m ↔ assocLookup m k = some v := by
  induction m with
  | nil => simp [assocLookup]
  | cons kv rest ih =>
    obtain ⟨k0, v0⟩ := kv
    rcases List.pairwise_cons.mp hm with ⟨hall, hrest⟩
    by_cases hk : k0 = k
    · subst hk
      constructor
      · intro hmem
        rcases List.mem_cons.mp hmem with heq | hmem'
        · have hv : v = v0 := ((Prod.mk.injEq _ _ _ _).mp heq).2
          simp [assocLookup, hv]
        · exact absurd (hall _ hmem') (lt_irrefl _)
      · intro hv
        have hv' : v0 = v := by simpa [assocLookup] using hv
        rw [← hv']
        exact List.mem_cons_self _ _
    · rw [show assocLookup ((k0, v0) :: rest) k = assocLookup rest k from by
        simp [assocLookup, hk]]
      rw [← ih hrest]
      constructor
      · intro hmem
        rcases List.mem_cons.mp hmem with heq | hmem'
        · exact absurd ((Prod.mk.injEq _ _ _ _).mp heq).1.symm hk
        · exact hmem'
      · exact List.mem_cons_of_mem _

theorem sequencerMaxes_pairwise (l : List PartitionLifecycleStats) :
    List.Pairwise (fun a b => a.1 < b.1) (sequencerMaxes l) := by
  have haux : ∀ (l : List PartitionLifecycleStats) (m : List (Int × Int)),
      List.Pairwise (fun a b => a.1 < b.1) m →
      List.Pairwise (fun a b => a.1 < b.1)
        (l.foldl (fun m st => insertSequencerMax m st.sequencerId st.firstSequenceNumber) m) := by
    intro l
    induction l with
    | nil => intro m hm; exact hm
    | cons st l ih =>
      intro m hm
      exact ih _ (insertSequencerMax_pairwise m st.sequencerId st.firstSequenceNumber hm)
  exact haux l [] (by simp)

/-- Membership in the sequencer_maxes map: sid is the sequencer of some
just-persisted partition and the value is the largest first_sequence_number
among that sequencer's just-persisted partitions. -/
theorem mem_sequencerMaxes_iff (toPersist : List PartitionLifecycleStats) (sid v : Int) :
    (sid, v) ∈ sequencerMaxes toPersist ↔
      seqMax ((toPersist.filter (fun st => decide (st.sequencerId = sid))).map
        PartitionLifecycleStats.firstSequenceNumber) = some v := by
  rw [assocLookup_eq_some_iff_mem _ (sequencerMaxes_pairwise toPersist)]
  unfold sequencerMaxes
  rw [assocLookup_foldl_insertSequencerMax _ _ _ (by simp)]
  simp [assocLookup, optMax]

theorem seqMax_of_ne_nil (l : List Int) (h : l ≠ []) : ∃ v, seqMax l = some v := by
  cases l with
  | nil => exact absurd rfl h
  | cons x rest => cases hr : seqMax rest <;> simp [seqMax, hr]

theorem seqMin_of_ne_nil (l : List Int) (h : l ≠ []) : ∃ v, seqMin l = some v := by
  cases l with
  | nil => exact absurd rfl h
  | cons x rest => cases hr : seqMin rest <;> simp [seqMin, hr]

/-- The sequencer updates of one evaluation, unfolded. -/
theorem maybe_persist_updates_def (config : LifecycleConfig) (now : Nat)
    (s : LifecycleState) :
    (maybe_persist config now s).sequencerUpdates =
      if (maybe_persist config now s).toPersist.isEmpty then []
      else (sequencerMaxes (maybe_persist config now s).toPersist).map
        (fun kv => (kv.1, minUnpersisted (maybe_persist config now s).rest kv.1 kv.2)) := rfl

/-- C4: whenever an evaluation persists at least one partition, every
recorded min_unpersisted_sequence_number update (sequencer, value) has a
just-persisted partition on that sequencer, and its value is the minimum
first_sequence_number over the still-buffered (rest) partitions of that
sequencer, or, when none remain there, the maximum of the
first_sequence_number values of the just-persisted partitions of that
sequencer (the sequence number each persisted partition carries in the
manager's stats); moreover every sequencer that had a partition persisted
receives an update. -/
theorem maybe_persist_min_unpersisted (config : LifecycleConfig) (now : Nat)
    (s : LifecycleState)
    (hne : (maybe_persist config now s).toPersist ≠ []) :
    (∀ u ∈ (maybe_persist config now s).sequencerUpdates,
      (∃ p ∈ (maybe_persist config now s).toPersist, p.sequencerId = u.1) ∧
      ((maybe_persist config now s).rest.filter
          (fun st => decide (st.sequencerId = u.1)) ≠ [] →
        some u.2 = seqMin (((maybe_persist config now s).rest.filter
          (fun st => decide (st.sequencerId = u.1))).map
            PartitionLifecycleStats.firstSequenceNumber)) ∧
      ((maybe_persist config now s).rest.filter
          (fun st => decide (st.sequencerId = u.1)) = [] →
        some u.2 = seqMax (((maybe_persist config now s).toPersist.filter
          (fun st => decide (st.sequencerId = u.1))).map
            PartitionLifecycleStats.firstSequenceNumber))) ∧
    (∀ p ∈ (maybe_persist config now s).toPersist,
      ∃ u ∈ (maybe_persist config now s).sequencerUpdates, u.1 = p.sequencerId) := by
  set r := maybe_persist config now s with hr
  have hupd : r.sequencerUpdates = (sequencerMaxes r.toPersist).map
      (fun kv => (kv.1, minUnpersisted r.rest kv.1 kv.2)) := by
    rw [hr, maybe_persist_updates_def, if_neg]
    simpa [List.isEmpty_iff] using hne
  constructor
  · intro u hu
    rw [hupd] at hu
    rcases List.mem_map.mp hu with ⟨kv, hkv, hueq⟩
    obtain ⟨sid, sn⟩ := kv
    have hmax := (mem_sequencerMaxes_iff r.toPersist sid sn).mp hkv
    rw [← hueq]
    refine ⟨?_, ?_, ?_⟩
    · show ∃ p ∈ r.toPersist, p.sequencerId = sid
      have hfil : r.toPersist.filter (fun st => decide (st.sequencerId = sid)) ≠ [] := by
        intro hnil
        rw [hnil] at hmax
        exact absurd hmax (by simp [seqMax])
      obtain ⟨p, hp⟩ := List.exists_mem_of_ne_nil _ hfil
      exact ⟨p, List.mem_of_mem_filter hp,
        show p.sequencerId = sid from of_decide_eq_true ((List.mem_filter.mp hp).2)⟩
    · show r.rest.filter (fun st => decide (st.sequencerId = sid)) ≠ [] →
        some (minUnpersisted r.rest sid sn) =
          seqMin ((r.rest.filter (fun st => decide (st.sequencerId = sid))).map
            PartitionLifecycleStats.firstSequenceNumber)
      intro hfil
      have hmapne : (r.rest.filter (fun st => decide (st.sequencerId = sid))).map
          PartitionLifecycleStats.firstSequenceNumber ≠ [] := by
        simpa [List.map_eq_nil_iff] using hfil
      obtain ⟨m, hm⟩ := seqMin_of_ne_nil _ hmapne
      simp only [minUnpersisted, hm]
    · show r.rest.filter (fun st => decide (st.sequencerId = sid)) = [] →
        some (minUnpersisted r.rest sid sn) =
          seqMax ((r.toPersist.filter (fun st => decide (st.sequencerId = sid))).map
            PartitionLifecycleStats.firstSequenceNumber)
      intro hfil
      simp only [minUnpersisted, hfil, List.map_nil, seqMin]
      exact hmax.symm
  · intro p hp
    have hfil : p ∈ r.toPersist.filter (fun st => decide (st.sequencerId = p.sequencerId)) :=
      List.mem_filter.mpr ⟨hp, by simp⟩
    have hmapne : (r.toPersist.filter
        (fun st => decide (st.sequencerId = p.sequencerId))).map
          PartitionLifecycleStats.firstSequenceNumber ≠ [] := by
      simp only [ne_eq, List.map_eq_nil_iff]
      intro hnil
      rw [hnil] at hfil
      exact absurd hfil (List.not_mem_nil p)
    obtain ⟨v, hv⟩ := seqMax_of_ne_nil _ hmapne
    have hmem := (mem_sequencerMaxes_iff r.toPersist p.sequencerId v).mpr hv
    refine ⟨(p.sequencerId, minUnpersisted r.rest p.sequencerId v), ?_, rfl⟩
    rw [hupd]
    exact List.mem_map.mpr ⟨(p.sequencerId, v), hmem, rfl⟩

/-- Witness for C4: a single partition of sequencer 7 with
first_sequence_number 3 and 25 bytes written (over the size threshold 20)
is persisted and, with nothing else buffered for sequencer 7, the recorded
update is (7, 3), the max of the persisted first sequence numbers. -/
theorem maybe_persist_min_unpersisted_witness :
    (maybe_persist ⟨30, 20, 20, 1000000000, 1000000000⟩ 0
        ⟨25, [⟨7, 1, 0, 0, 25, 3⟩]⟩).sequencerUpdates = [(7, 3)] := by
  have h := maybe_persist_min_unpersisted ⟨30, 20, 20, 1000000000, 1000000000⟩ 0
    ⟨25, [⟨7, 1, 0, 0, 25, 3⟩]⟩ (by decide)
  have hu := h.2 ⟨7, 1, 0, 0, 25, 3⟩ (by decide)
  rcases hu with ⟨u, hu, hu1⟩
  rcases List.mem_singleton.mp (show u ∈ [((7 : Int), (3 : Int))] from hu) with rfl
  rfl

/-- C8: the S5 scenario. With 25 bytes logged to partition 1 and 6 bytes to
partition 2 (both on sequencer 1, all at time 0), persist_memory_threshold
20 and any partition_size_threshold between the two partition sizes (the
scenario fixes only the memory threshold; the size trigger requires
6 <= partition_size_threshold < 25), one evaluation persists exactly
partition 1 through the size trigger (the size metric is incremented once
and the memory metric not at all), retains partition 2, and leaves
total_bytes = 6. -/
theorem lifecycle_two_partition_scenario (pst : Nat) (h1 : 6 ≤ pst) (h2 : pst < 25) :
    (maybe_persist ⟨30, 20, pst, 1000000000, 1000000000⟩ 0
        (log_write ⟨30, 20, pst, 1000000000, 1000000000⟩
          (log_write ⟨30, 20, pst, 1000000000, 1000000000⟩ ⟨0, []⟩ 0 1 1 1 25).1
          0 2 1 2 6).1).toPersist.map PartitionLifecycleStats.partitionId = [1] ∧
    (maybe_persist ⟨30, 20, pst, 1000000000, 1000000000⟩ 0
        (log_write ⟨30, 20, pst, 1000000000, 1000000000⟩
          (log_write ⟨30, 20, pst, 1000000000, 1000000000⟩ ⟨0, []⟩ 0 1 1 1 25).1
          0 2 1 2 6).1).rest.map PartitionLifecycleStats.partitionId = [2] ∧
    (maybe_persist ⟨30, 20, pst, 1000000000, 1000000000⟩ 0
        (log_write ⟨30, 20, pst, 1000000000, 1000000000⟩
          (log_write ⟨30, 20, pst, 1000000000, 1000000000⟩ ⟨0, []⟩ 0 1 1 1 25).1
          0 2 1 2 6).1).sizeTriggerCount = 1 ∧
    (maybe_persist ⟨30, 20, pst, 1000000000, 1000000000⟩ 0
        (log_write ⟨30, 20, pst, 1000000000, 1000000000⟩
          (log_write ⟨30, 20, pst, 1000000000, 1000000000⟩ ⟨0, []⟩ 0 1 1 1 25).1
          0 2 1 2 6).1).memoryTriggerCount = 0 ∧
    (maybe_persist ⟨30, 20, pst, 1000000000, 1000000000⟩ 0
        (log_write ⟨30, 20, pst, 1000000000, 1000000000⟩
          (log_write ⟨30, 20, pst, 1000000000, 1000000000⟩ ⟨0, []⟩ 0 1 1 1 25).1
          0 2 1 2 6).1).newState.totalBytes = 6 ∧
    (maybe_persist ⟨30, 20, pst, 1000000000, 1000000000⟩ 0
        (log_write ⟨30, 20, pst, 1000000000, 1000000000⟩
          (log_write ⟨30, 20, pst, 1000000000, 1000000000⟩ ⟨0, []⟩ 0 1 1 1 25).1
          0 2 1 2 6).1).newState.partitionStats.map
      PartitionLifecycleStats.partitionId = [2] := by
  have hs2 : (log_write ⟨30, 20, pst, 1000000000, 1000000000⟩
      (log_write ⟨30, 20, pst, 1000000000, 1000000000⟩ ⟨0, []⟩ 0 1 1 1 25).1
      0 2 1 2 6).1 =
      ⟨31, [⟨1, 1, 0, 0, 25, 1⟩, ⟨1, 2, 0, 0, 6, 2⟩]⟩ := rfl
  rw [hs2]
  have hsA : sizedOut ⟨30, 20, pst, 1000000000, 1000000000⟩ ⟨1, 1, 0, 0, 25, 1⟩ = true := by
    simp only [sizedOut, decide_eq_true_eq]
    exact h2
  have hsB : sizedOut ⟨30, 20, pst, 1000000000, 1000000000⟩ ⟨1, 2, 0, 0, 6, 2⟩ = false := by
    simp only [sizedOut, decide_eq_false_iff_not, gt_iff_lt, not_lt]
    exact h1
  have hA : firstPhaseTrigger ⟨30, 20, pst, 1000000000, 1000000000⟩ 0
      ⟨1, 1, 0, 0, 25, 1⟩ = true := by
    simp [firstPhaseTrigger, hsA]
  have hB : firstPhaseTrigger ⟨30, 20, pst, 1000000000, 1000000000⟩ 0
      ⟨1, 2, 0, 0, 6, 2⟩ = false := by
    simp [firstPhaseTrigger, hsB, agedOut, isCold]
  have hageA : agedOut ⟨30, 20, pst, 1000000000, 1000000000⟩ 0 ⟨1, 1, 0, 0, 25, 1⟩ = false := rfl
  have hageB : agedOut ⟨30, 20, pst, 1000000000, 1000000000⟩ 0 ⟨1, 2, 0, 0, 6, 2⟩ = false := rfl
  have hcoldA : isCold ⟨30, 20, pst, 1000000000, 1000000000⟩ 0 ⟨1, 1, 0, 0, 25, 1⟩ = false := rfl
  have hcoldB : isCold ⟨30, 20, pst, 1000000000, 1000000000⟩ 0 ⟨1, 2, 0, 0, 6, 2⟩ = false := rfl
  simp [maybe_persist, List.partition_eq_filter_filter, List.filter_cons,
    hA, hB, hsA, hsB, hageA, hageB, hcoldA, hcoldB]

/-- Witness for C8 at partition_size_threshold 20. -/
theorem lifecycle_two_partition_scenario_witness :
    (maybe_persist ⟨30, 20, 20, 1000000000, 1000000000⟩ 0
        (log_write ⟨30, 20, 20, 1000000000, 1000000000⟩
          (log_write ⟨30, 20, 20, 1000000000, 1000000000⟩ ⟨0, []⟩ 0 1 1 1 25).1
          0 2 1 2 6).1).newState.totalBytes = 6 :=
  (lifecycle_two_partition_scenario 20 (by decide) (by decide)).2.2.2.2.1

/-! ### Reorg planner split plan (iox_query/src/frontend/reorg.rs) -/

/-- The predicate time <= t of the first split expression
(col(TIME).lt_eq(lit_timestamp_nano(t))), under SQL semantics: a NULL time
compares to NULL, which is not true. -/
def timeLtEq (t : Int) : Option Int → Bool
  | some v => decide (v ≤ t)
  | none => false

/-- The predicate lo < time AND time <= t of the later split expressions;
with a NULL time both comparisons are NULL and the conjunction is not
true. -/
def timeGtAndLtEq (lo t : Int) : Option Int → Bool
  | some v => decide (lo < v ∧ v ≤ t)
  | none => false

/-- The loop of ReorgPlanner::split_plan building split_exprs[i] for
i >= 1, carrying split_times[i-1] as prev. -/
def splitExprsAux (prev : Int) : List Int → List (Option Int → Bool)
  | [] => []
  | t :: rest => timeGtAndLtEq prev t :: splitExprsAux t rest

/-- The split_exprs vector of ReorgPlanner::split_plan:
time <= split_times[0], then split_times[i-1] < time <= split_times[i].
split_plan panics on an empty split_times (modelled by the empty result)
and on non-ascending split_times (the ascending requirement appears as a
hypothesis of the theorem). -/
def split_exprs : List Int → List (Option Int → Bool)
  | [] => []
  | t :: rest => timeLtEq t :: splitExprsAux t rest

/-- The StreamSplit routing documented at make_stream_split
(iox_query/src/exec.rs): each row goes to the output stream of the first
predicate that evaluates to true, or to the last stream (index = number of
predicates) if none does. -/
def routeRow (exprs : List (Option Int → Bool)) (x : Option Int) : Nat :=
  exprs.findIdx (fun p => p x)

/-- The rows of output stream i of a split plan over the given rows. -/
def splitStream (splitTimes : List Int) (rows : List (Option Int)) (i : Nat) :
    List (Option Int) :=
  rows.filter (fun x => decide (routeRow (split_exprs splitTimes) x = i))

theorem splitExprsAux_length (prev : Int) (l : List Int) :
    (splitExprsAux prev l).length = l.length := by
  induction l generalizing prev with
  | nil => rfl
  | cons t rest ih => simp [splitExprsAux, ih]

theorem split_exprs_length (ts : List Int) : (split_exprs ts).length = ts.length := by
  cases ts with
  | nil => rfl
  | cons t rest => simp [split_exprs, splitExprsAux_length]

/-- A NULL time makes every split expression false, so the row is routed to
the last stream. -/
theorem routeRow_none (ts : List Int) : routeRow (split_exprs ts) none = ts.length := by
  have haux : ∀ (l : List Int) (prev : Int),
      (splitExprsAux prev l).findIdx (fun p => p none) = l.length := by
    intro l
    induction l with
    | nil => intro prev; rfl
    | cons t rest ih =>
      intro prev
      rw [show splitExprsAux prev (t :: rest) = timeGtAndLtEq prev t :: splitExprsAux t rest
        from rfl]
      rw [List.findIdx_cons]
      simp [timeGtAndLtEq, ih]
  cases ts with
  | nil => rfl
  | cons t rest =>
    rw [show split_exprs (t :: rest) = timeLtEq t :: splitExprsAux t rest from rfl]
    simp only [routeRow, List.findIdx_cons]
    simp [timeLtEq, haux]

/-- For a non-NULL time the first true split expression is the first split
time at or after the value (regardless of the order of split_times). -/
theorem routeRow_some (ts : List Int) (v : Int) :
    routeRow (split_exprs ts) (some v) = ts.findIdx (fun t => decide (v ≤ t)) := by
  have haux : ∀ (l : List Int) (prev : Int), prev < v →
      (splitExprsAux prev l).findIdx (fun p => p (some v)) =
        l.findIdx (fun t => decide (v ≤ t)) := by
    intro l
    induction l with
    | nil => intro prev _; rfl
    | cons t rest ih =>
      intro prev hprev
      rw [show splitExprsAux prev (t :: rest) = timeGtAndLtEq prev t :: splitExprsAux t rest
        from rfl]
      rw [List.findIdx_cons, List.findIdx_cons]
      by_cases hv : v ≤ t
      · simp [timeGtAndLtEq, hprev, hv]
      · have hlt : t < v := not_le.mp hv
        simp [timeGtAndLtEq, hprev, hv, ih t hlt]
  cases ts with
  | nil => rfl
  | cons t rest =>
    rw [show split_exprs (t :: rest) = timeLtEq t :: splitExprsAux t rest from rfl]
    simp only [routeRow, List.findIdx_cons]
    by_cases hv : v ≤ t
    · simp [timeLtEq, hv]
    · have hlt : t < v := not_le.mp hv
      simp [timeLtEq, hv, haux rest t hlt]

theorem findIdx_eq_length_iff_all_false {α : Type} (l : List α) (p : α → Bool) :
    l.findIdx p = l.length ↔ ∀ a ∈ l, p a = false := by
  induction l with
  | nil => simp
  | cons a rest ih =>
    rw [List.findIdx_cons]
    by_cases hp : p a = true
    · simp [hp]
    · have hp' : p a = false := Bool.eq_false_iff.mpr hp
      simp [hp', ih]

theorem getD_mem_of_lt (l : List Int) (j : Nat) (h : j < l.length) : l.getD j 0 ∈ l := by
  rw [List.getD_eq_getElem?_getD, List.getElem?_eq_getElem h]
  exact List.getElem_mem h

theorem le_getLast_of_chain_lt (ts : List Int) (hs : List.Chain' (· < ·) ts)
    (hne : ts ≠ []) : ∀ t ∈ ts, t ≤ ts.getLast hne := by
  induction ts with
  | nil => exact absurd rfl hne
  | cons a rest ih =>
    intro t ht
    cases rest with
    | nil =>
      rcases List.mem_singleton.mp ht with rfl
      simp [List.getLast]
    | cons b rest' =>
      rw [List.getLast_cons (List.cons_ne_nil b rest')]
      have hall : ∀ u ∈ b :: rest', a < u :=
        (List.pairwise_cons.mp ((List.chain'_iff_pairwise).mp hs)).1
      rcases List.mem_cons.mp ht with rfl | ht'
      · have hlast := List.getLast_mem (List.cons_ne_nil b rest')
        exact le_of_lt (hall _ hlast)
      · exact ih hs.tail (List.cons_ne_nil b rest') t ht'

theorem findIdx_le_eq_iff_between (ts : List Int) (v : Int) :
    List.Chain' (· < ·) ts → ∀ i : Nat, 0 < i → i < ts.length →
      (ts.findIdx (fun t => decide (v ≤ t)) = i ↔
        ts.getD (i - 1) 0 < v ∧ v ≤ ts.getD i 0) := by
  induction ts with
  | nil =>
    intro _ i _ hi
    exact absurd hi (by simp)
  | cons t rest ih =>
    intro hsort i h0 hi
    obtain ⟨j, rfl⟩ : ∃ j, i = j + 1 := ⟨i - 1, (Nat.succ_pred_eq_of_pos h0).symm⟩
    have hall : ∀ u ∈ rest, t < u :=
      (List.pairwise_cons.mp ((List.chain'_iff_pairwise).mp hsort)).1
    rw [List.findIdx_cons]
    by_cases hv : v ≤ t
    · constructor
      · intro h
        simp [hv] at h
      · rintro ⟨hgt, -⟩
        exfalso
        cases j with
        | zero =>
          rw [show (t :: rest).getD (0 + 1 - 1) 0 = t from rfl] at hgt
          exact absurd hv (not_le.mpr hgt)
        | succ j' =>
          have hj' : j' < rest.length := by
            have := hi
            simp only [List.length_cons] at this
            omega
          rw [show (t :: rest).getD (j' + 1 + 1 - 1) 0 = rest.getD j' 0 from rfl] at hgt
          have hmem : rest.getD j' 0 ∈ rest := getD_mem_of_lt rest j' hj'
          have := hall _ hmem
          exact absurd hv (not_le.mpr (this.trans hgt))
    · have hd : decide (v ≤ t) = false := decide_eq_false hv
      rw [hd]
      have htv : t < v := not_le.mp hv
      cases j with
      | zero =>
        have hrestlen : 0 < rest.length := by
          have := hi
          simp only [List.length_cons] at this
          omega
        cases rest with
        | nil => exact absurd hrestlen (by simp)
        | cons r rest' =>
          rw [List.findIdx_cons]
          by_cases hvr : v ≤ r
          · simp [hvr, htv]
          · have hdr : decide (v ≤ r) = false := decide_eq_false hvr
            simp [hdr, hvr, htv]
      | succ j' =>
        have hj : 0 < j' + 1 := Nat.succ_pos _
        have hj2 : j' + 1 < rest.length := by
          have := hi
          simp only [List.length_cons] at this
          omega
        have := ih hsort.tail (j' + 1) hj hj2
        rw [show (t :: rest).getD (j' + 1 + 1 - 1) 0 = rest.getD (j' + 1 - 1) 0 from rfl,
          show (t :: rest).getD (j' + 1 + 1) 0 = rest.getD (j' + 1) 0 from rfl]
        rw [← this]
        simp [Bool.cond_false]

/-- C7: for a non-empty strictly ascending split_times of length N, the
split plan routes each row by its time: stream 0 gets exactly the rows
with time at most split_times[0]; stream i (0 < i < N) gets exactly the
rows with split_times[i-1] < time <= split_times[i]; stream N gets exactly
the rows with time beyond split_times[N-1] together with NULL-time rows.
In particular the S6 scenario: rows at times 50, 100, 1000, 5000, 7000
with split_times [1000, 7000] yield stream 0 = rows 50, 100, 1000,
stream 1 = rows 5000, 7000, and stream 2 empty. -/
theorem split_plan_routes_by_time (ts : List Int) (h1 : ts ≠ [])
    (h2 : List.Chain' (· < ·) ts) :
    (∀ x : Option Int,
      (routeRow (split_exprs ts) x = 0 ↔ ∃ v, x = some v ∧ v ≤ ts.headD 0) ∧
      (∀ i : Nat, 0 < i → i < ts.length →
        (routeRow (split_exprs ts) x = i ↔
          ∃ v, x = some v ∧ ts.getD (i - 1) 0 < v ∧ v ≤ ts.getD i 0)) ∧
      (routeRow (split_exprs ts) x = ts.length ↔
        x = none ∨ ∃ v, x = some v ∧ ts.getLast h1 < v)) ∧
    splitStream [1000, 7000] [some 50, some 100, some 1000, some 5000, some 7000] 0 =
      [some 50, some 100, some 1000] ∧
    splitStream [1000, 7000] [some 50, some 100, some 1000, some 5000, some 7000] 1 =
      [some 5000, some 7000] ∧
    splitStream [1000, 7000] [some 50, some 100, some 1000, some 5000, some 7000] 2 = [] := by
  refine ⟨?_, by decide, by decide, by decide⟩
  intro x
  cases x with
  | none =>
    refine ⟨?_, ?_, ?_⟩
    · rw [routeRow_none]
      constructor
      · intro h
        have := List.length_pos.mpr h1
        omega
      · rintro ⟨v, hv, -⟩
        exact absurd hv (by simp)
    · intro i h0 hi
      rw [routeRow_none]
      constructor
      · intro h
        omega
      · rintro ⟨v, hv, -⟩
        exact absurd hv (by simp)
    · rw [routeRow_none]
      simp
  | some v =>
    refine ⟨?_, ?_, ?_⟩
    · rw [routeRow_some]
      cases ts with
      | nil => exact absurd rfl h1
      | cons t rest =>
        rw [List.findIdx_cons]
        by_cases hv : v ≤ t
        · simp [hv, List.headD]
        · simp [decide_eq_false hv, hv, List.headD]
    · intro i h0 hi
      rw [routeRow_some, findIdx_le_eq_iff_between ts v h2 i h0 hi]
      constructor
      · intro h
        exact ⟨v, rfl, h⟩
      · rintro ⟨v', hv', h⟩
        rw [(Option.some.injEq _ _).mp hv']
        exact h
    · rw [routeRow_some, findIdx_eq_length_iff_all_false]
      constructor
      · intro hall
        right
        refine ⟨v, rfl, ?_⟩
        have := hall (ts.getLast h1) (List.getLast_mem h1)
        simpa using this
      · rintro (h | ⟨v', hv', hgt⟩)
        · exact absurd h (by simp)
        · have hv : v' = v := ((Option.some.injEq _ _).mp hv').symm
          subst hv
          intro a ha
          have hle := le_getLast_of_chain_lt ts h2 h1 a ha
          have : ¬ v' ≤ a := not_le.mpr (lt_of_le_of_lt hle hgt)
          exact decide_eq_false this

/-- Witness for C7: with split_times [1000, 7000], a row at time 5000 is
routed to stream 1 by the middle-interval rule. -/
theorem split_plan_routes_by_time_witness :
    routeRow (split_exprs [1000, 7000]) (some 5000) = 1 := by
  have h := (split_plan_routes_by_time [1000, 7000] (by decide)
    (by norm_num [List.chain'_cons])).1 (some 5000)
  exact (h.2.1 1 (by decide) (by decide)).mpr ⟨5000, rfl, by decide, by decide⟩

/-- C9: the compactor's dedup-merge order for a queryable parquet chunk is
the file's max sequence number for an L0 (Initial) file and 0 for an L1
(FileNonOverlapped) file, and the chunk id used as tiebreaker is the
file's object store id. -/
theorem queryable_parquet_chunk_order_id (c : QueryableParquetChunk) :
    (c.compactionLevel = CompactionLevel.initial →
      QueryableParquetChunk.order c = c.maxSequenceNumber) ∧
    (c.compactionLevel = CompactionLevel.fileNonOverlapped →
      QueryableParquetChunk.order c = 0) ∧
    QueryableParquetChunk.id c = c.objectStoreId := by
  refine ⟨?_, ?_, rfl⟩
  · intro h
    simp [QueryableParquetChunk.order, h]
  · intro h
    simp [QueryableParquetChunk.order, h]

/-- Witness for C9: an L0 chunk at max sequence 42 has order 42, an L1
chunk at the same max sequence has order 0. -/
theorem queryable_parquet_chunk_order_id_witness :
    QueryableParquetChunk.order ⟨42, CompactionLevel.initial, 5⟩ = 42 ∧
    QueryableParquetChunk.order ⟨42, CompactionLevel.fileNonOverlapped, 5⟩ = 0 :=
  ⟨(queryable_parquet_chunk_order_id ⟨42, CompactionLevel.initial, 5⟩).1 rfl,
    (queryable_parquet_chunk_order_id ⟨42, CompactionLevel.fileNonOverlapped, 5⟩).2.1 rfl⟩

/-! ### Ingester query RPC handler (ingester/src/querier_handler.rs) -/

/-- The partition status snapshot carried by every envelope. -/
structure PartitionStatus where
  parquetMaxSequenceNumber : Option Int
  tombstoneMaxSequenceNumber : Option Int
deriving DecidableEq, Repr

/-- UnpersistedPartitionData as consumed by prepare_data_to_querier: the
partition id, the status snapshot, the optional persisting batch and the
non-persisted snapshots. Record batches are opaque Nat tokens; a
QueryableBatch is its list of batches. -/
structure UnpersistedPartitionData where
  partitionId : Int
  partitionStatus : PartitionStatus
  persisting : Option (List Nat)
  nonPersisted : List Nat
deriving DecidableEq, Repr

/-- The queryable batch assembled per partition:
unpersisted_partition_data.persisting (or an empty batch) extended with
the non-persisted data (QueryableBatch::with_data). -/
def queryableData (p : UnpersistedPartitionData) : List Nat :=
  (p.persisting.getD []) ++ p.nonPersisted

/-- Per-sequencer data: namespace name to table name to the unpersisted
partition data of that table (the lookups namespace(), table_data() and
unpersisted_partition_data() of the ingester's data module as used by
querier_handler.rs). -/
structure SequencerData where
  namespaces : List (String × List (String × List UnpersistedPartitionData))
deriving DecidableEq, Repr

/-- First-match association lookup for the namespace and table maps. -/
def assocFind {A : Type} (l : List (String × A)) (key : String) : Option A :=
  match l with
  | [] => none
  | (k, v) :: rest => if k = key then some v else assocFind rest key

/-- The error cases of prepare_data_to_querier relevant here. -/
inductive QueryError where
  | namespaceNotFound
  | tableNotFound
deriving DecidableEq, Repr

/-- One partition envelope of the response stream: partition id, the
status, and the snapshot stream (none when the partition had no data at
all, otherwise the record batches surviving the query's predicate and
projection). -/
structure IngesterQueryPartition where
  partitionId : Int
  status : PartitionStatus
  snapshots : Option (List Nat)
deriving DecidableEq, Repr

/-- One iteration of the sequencer loop of prepare_data_to_querier:
remember that the namespace was found and append the table's unpersisted
partitions (a missing table contributes nothing; a missing namespace
leaves the accumulator unchanged). -/
def prepareStep (ns tbl : String) (acc : Bool × List UnpersistedPartitionData)
    (sq : Int × SequencerData) : Bool × List UnpersistedPartitionData :=
  match assocFind sq.2.namespaces ns with
  | some nd =>
    match assocFind nd tbl with
    | some td => (true, acc.2 ++ td)
    | none => (true, acc.2)
  | none => acc

/-- prepare_data_to_querier of ingester/src/querier_handler.rs. exec
abstracts the per-partition DataFusion scan (predicate filter plus column
projection) run by prepare_data_to_querier_for_partition; a partition
whose assembled queryable batch is empty yields no snapshot stream
(Ok(None)), but in every case an envelope with the partition's id and
status is emitted. After the sequencer loop, NamespaceNotFound is raised
when no sequencer knew the namespace and TableNotFound when no unpersisted
partitions were collected. -/
def prepare_data_to_querier (exec : List Nat → List Nat)
    (sequencers : List (Int × SequencerData)) (ns tbl : String) :
    Except QueryError (List IngesterQueryPartition) :=
  let r := sequencers.foldl (prepareStep ns tbl) (false, [])
  if r.1 = false then Except.error QueryError.namespaceNotFound
  else if r.2.isEmpty then Except.error QueryError.tableNotFound
  else Except.ok (r.2.map (fun p =>
    { partitionId := p.partitionId
      status := p.partitionStatus
      snapshots :=
        if (queryableData p).isEmpty then none else some (exec (queryableData p)) }))

/-- Whether any sequencer knows the namespace. -/
def namespaceKnown (sequencers : List (Int × SequencerData)) (ns : String) : Bool :=
  sequencers.any (fun sq => (assocFind sq.2.namespaces ns).isSome)

/-- All unpersisted partition data collected for the request, in sequencer
order. -/
def unpersistedFor (sequencers : List (Int × SequencerData)) (ns tbl : String) :
    List UnpersistedPartitionData :=
  sequencers.foldl
    (fun acc sq =>
      match assocFind sq.2.namespaces ns with
      | some nd =>
        match assocFind nd tbl with
        | some td => acc ++ td
        | none => acc
      | none => acc)
    []

/-- The accumulating fold of prepare_data_to_querier computes
(namespaceKnown, unpersistedFor). -/
theorem prepare_fold_spec (sequencers : List (Int × SequencerData)) (ns tbl : String) :
    sequencers.foldl (prepareStep ns tbl) (false, []) =
      (namespaceKnown sequencers ns, unpersistedFor sequencers ns tbl) := by
  have haux : ∀ (l : List (Int × SequencerData)) (b : Bool)
      (acc : List UnpersistedPartitionData),
      l.foldl (prepareStep ns tbl) (b, acc) =
        ((b || namespaceKnown l ns),
          l.foldl
            (fun acc sq =>
              match assocFind sq.2.namespaces ns with
              | some nd =>
                match assocFind nd tbl with
                | some td => acc ++ td
                | none => acc
              | none => acc)
            acc) := by
    intro l
    induction l with
    | nil => intro b acc; simp [namespaceKnown]
    | cons sq l ih =>
      intro b acc
      rw [List.foldl_cons, List.foldl_cons]
      cases hns : assocFind sq.2.namespaces ns with
      | none =>
        rw [show prepareStep ns tbl (b, acc) sq = (b, acc) from by
          simp [prepareStep, hns]]
        rw [ih b acc]
        simp [namespaceKnown, List.any_cons, hns]
      | some nd =>
        cases htd : assocFind nd tbl with
        | none =>
          rw [show prepareStep ns tbl (b, acc) sq = (true, acc) from by
            simp [prepareStep, hns, htd]]
          rw [ih true acc]
          simp [namespaceKnown, List.any_cons, hns, htd]
        | some td =>
          rw [show prepareStep ns tbl (b, acc) sq = (true, acc ++ td) from by
            simp [prepareStep, hns, htd]]
          rw [ih true (acc ++ td)]
          simp [namespaceKnown, List.any_cons, hns, htd]
  rw [haux sequencers false []]
  simp [unpersistedFor]

/-- C10: when some sequencer knows the namespace but no unpersisted
partition data exists for the requested table across all sequencers,
prepare_data_to_querier returns TableNotFound rather than an empty
stream; and when it succeeds, it emits one envelope per unpersisted
partition, carrying that partition's id and status, regardless of how much
data the per-partition query filtering leaves (exec is arbitrary, so the
statement covers filtering that leaves zero record batches). -/
theorem prepare_data_to_querier_correct (exec : List Nat → List Nat)
    (sequencers : List (Int × SequencerData)) (ns tbl : String) :
    (namespaceKnown sequencers ns = true → unpersistedFor sequencers ns tbl = [] →
      prepare_data_to_querier exec sequencers ns tbl =
        Except.error QueryError.tableNotFound) ∧
    (∀ envs, prepare_data_to_querier exec sequencers ns tbl = Except.ok envs →
      envs.map (fun e => (e.partitionId, e.status)) =
        (unpersistedFor sequencers ns tbl).map
          (fun p => (p.partitionId, p.partitionStatus))) := by
  constructor
  · intro hknown hempty
    unfold prepare_data_to_querier
    rw [prepare_fold_spec]
    simp [hknown, hempty]
  · intro envs hok
    unfold prepare_data_to_querier at hok
    rw [prepare_fold_spec] at hok
    by_cases hknown : namespaceKnown sequencers ns = true
    · by_cases hempty : (unpersistedFor sequencers ns tbl).isEmpty
      · rw [if_neg (by simp [hknown]), if_pos hempty] at hok
        exact absurd hok (by simp)
      · rw [if_neg (by simp [hknown]), if_neg hempty] at hok
        have henvs := (Except.ok.injEq _ _).mp hok
        rw [← henvs, List.map_map]
        rfl
    · rw [if_pos (by simpa using hknown)] at hok
      exact absurd hok (by simp)

/-- Witness for C10: one sequencer knowing namespace n with table t having
no unpersisted partitions yields TableNotFound, and with one partition
(status parquet_max_seq = Some 2) a successful response carries exactly
that envelope even though exec filters every batch out. -/
theorem prepare_data_to_querier_correct_witness :
    prepare_data_to_querier (fun _ => []) [(0, ⟨[("n", [("t", [])])]⟩)] "n" "t" =
      Except.error QueryError.tableNotFound ∧
    ∃ envs,
      prepare_data_to_querier (fun _ => [])
        [(0, ⟨[("n", [("t", [⟨9, ⟨some 2, none⟩, none, [77]⟩])])]⟩)] "n" "t" =
        Except.ok envs ∧
      envs.map (fun e => (e.partitionId, e.status)) = [(9, ⟨some 2, none⟩)] := by
  constructor
  · exact (prepare_data_to_querier_correct (fun _ => [])
      [(0, ⟨[("n", [("t", [])])]⟩)] "n" "t").1 (by decide) (by decide)
  · refine ⟨[⟨9, ⟨some 2, none⟩, some []⟩], by rfl, ?_⟩
    have h := (prepare_data_to_querier_correct (fun _ => [])
      [(0, ⟨[("n", [("t", [⟨9, ⟨some 2, none⟩, none, [77]⟩])])]⟩)] "n" "t").2
      [⟨9, ⟨some 2, none⟩, some []⟩] (by rfl)
    rw [h]
    decide
